import Mathlib

/-!
Verification development for the MealShareAI sheet reconciliation parser.

The definitions below are a shallow embedding of the CSV parser
(`parseCSV` in `services/sheetService.ts`), of its server-side duplicate
(`SchedulerService.parseCSV` in `server/services/schedulerService.ts`),
and of the balance computation in `App.tsx`.

Modelling conventions:
* JS numbers are modelled as exact fractions `Q` (an integer numerator
  over a positive natural denominator, kept unreduced so that every
  operation is a structural computation the kernel can evaluate);
  `parseFloat` is modelled as a prefix parser returning `Option Q`
  (the literal `Infinity` and the precision of binary doubles are not
  modelled).
* JS `Map` objects are modelled as association lists that preserve
  insertion order and update in place, matching JS `Map` iteration order.
* Row/cell strings are plain Lean strings; the quote-aware comma split,
  quote stripping, trimming and lower-casing mirror the source regexes.
-/

namespace MealShare

/-- ASCII whitespace recognised by the model of JS `trim` and `\s`. -/
def isWS (c : Char) : Bool :=
  c = ' ' || c = '\t' || c = '\n' || c = '\r' || c = '\x0b' || c = '\x0c'

/-- Model of JS `String.prototype.trim`. -/
def jsTrim (s : String) : String :=
  ⟨((s.data.dropWhile isWS).reverse.dropWhile isWS).reverse⟩

/-- Model of JS `String.prototype.toLowerCase` (ASCII). -/
def jsLower (s : String) : String := ⟨s.data.map Char.toLower⟩

/-- `startsWithL pat l` holds when `pat` is a prefix of `l`. -/
def startsWithL : List Char → List Char → Bool
  | [], _ => true
  | _ :: _, [] => false
  | p :: ps, c :: cs => p = c && startsWithL ps cs

/-- `infixL pat l` holds when `pat` occurs somewhere inside `l`. -/
def infixL (pat : List Char) : List Char → Bool
  | [] => pat.isEmpty
  | c :: cs => startsWithL pat (c :: cs) || infixL pat cs

/-- Model of JS `String.prototype.includes`. -/
def jsIncludes (s pat : String) : Bool := infixL pat.data s.data

/-- Model of JS `replace(/\s/g, '')`. -/
def removeWS (s : String) : String := ⟨s.data.filter (fun c => !(isWS c))⟩

def isDigitB (c : Char) : Bool := '0' ≤ c && c ≤ '9'

def natOfDigits (l : List Char) : Nat :=
  l.foldl (fun a c => a * 10 + (c.toNat - '0'.toNat)) 0

/-- Exact fraction: integer numerator over a natural denominator.  All
values built by the embedding keep `0 < den`; fractions are not reduced,
so every arithmetic operation below is a plain structural computation. -/
structure Q where
  num : Int
  den : Nat
deriving DecidableEq, Repr

instance (n : Nat) : OfNat Q n := ⟨⟨n, 1⟩⟩

instance : Neg Q := ⟨fun a => ⟨-a.num, a.den⟩⟩

instance : Add Q := ⟨fun a b => ⟨a.num * b.den + b.num * a.den, a.den * b.den⟩⟩

instance : Sub Q := ⟨fun a b => ⟨a.num * b.den - b.num * a.den, a.den * b.den⟩⟩

instance : Mul Q := ⟨fun a b => ⟨a.num * b.num, a.den * b.den⟩⟩

/-- Division; division by a zero numerator is defined as `0` (that case is
guarded against in every code path of the source). -/
instance : Div Q := ⟨fun a b =>
  if b.num = 0 then ⟨0, 1⟩ else ⟨Int.sign b.num * a.num * b.den, a.den * b.num.natAbs⟩⟩

instance : LE Q := ⟨fun a b => a.num * (b.den : Int) ≤ b.num * (a.den : Int)⟩

instance : LT Q := ⟨fun a b => a.num * (b.den : Int) < b.num * (a.den : Int)⟩

instance (a b : Q) : Decidable (a ≤ b) :=
  inferInstanceAs (Decidable (a.num * (b.den : Int) ≤ b.num * (a.den : Int)))

instance (a b : Q) : Decidable (a < b) :=
  inferInstanceAs (Decidable (a.num * (b.den : Int) < b.num * (a.den : Int)))

/-- `10 ^ e` for an integer exponent. -/
def pow10 : Int → Q
  | Int.ofNat n => ⟨(10 : Int) ^ n, 1⟩
  | Int.negSucc n => ⟨1, 10 ^ (n + 1)⟩

/-- Model of JS `parseFloat`: skip leading whitespace, optional sign,
digits with optional fractional part, optional well-formed exponent;
`none` models `NaN`.  A malformed exponent suffix is ignored, as in JS. -/
def parseFloatQ (s : String) : Option Q :=
  let l0 := s.data.dropWhile isWS
  let sgn : Q := match l0 with
    | '-' :: _ => -(1 : Q)
    | _ => 1
  let l1 := match l0 with
    | '-' :: t => t
    | '+' :: t => t
    | t => t
  let intPart := l1.takeWhile isDigitB
  let l2 := l1.dropWhile isDigitB
  let fracPart := match l2 with
    | '.' :: t => t.takeWhile isDigitB
    | _ => []
  let l3 := match l2 with
    | '.' :: t => t.dropWhile isDigitB
    | t => t
  if intPart.isEmpty ∧ fracPart.isEmpty then none
  else
    let mant : Q := ⟨(natOfDigits (intPart ++ fracPart) : Int), 10 ^ fracPart.length⟩
    let expv : Int := match l3 with
      | 'e' :: t | 'E' :: t =>
        let esgn : Int := match t with
          | '-' :: _ => -1
          | _ => 1
        let t2 := match t with
          | '-' :: u => u
          | '+' :: u => u
          | u => u
        let ds := t2.takeWhile isDigitB
        if ds.isEmpty then 0 else esgn * natOfDigits ds
      | _ => 0
    some (sgn * mant * pow10 expv)

/-- Model of the JS idiom `parseFloat(x) || 0` (`NaN` collapses to `0`). -/
def parseFloatOrZero (s : String) : Q := (parseFloatQ s).getD 0

/-- Model of JS `(x).toFixed(2)` re-read with `parseFloat`: round to two
decimal places, ties rounding up (`⌊q * 100 + 1/2⌋ / 100`). -/
def round2 (q : Q) : Q := ⟨Int.fdiv (q.num * 200 + q.den) (2 * q.den), 100⟩

/-- Quote-aware comma split: the source splits on
`,(?=(?:(?:[^"]*"){2})*[^"]*$)`, i.e. on a comma followed by an even
number of quote characters up to the end of the line. -/
def quoteCount (l : List Char) : Nat := l.countP (fun c => c = '"')

def splitQA (acc : List Char) : List Char → List String
  | [] => [⟨acc.reverse⟩]
  | c :: rest =>
    if c = ',' ∧ quoteCount rest % 2 = 0 then
      (⟨acc.reverse⟩ : String) :: splitQA [] rest
    else splitQA (c :: acc) rest

/-- Model of JS `replace(/^"|"$/g, '')`: strip one leading and one
trailing quote character. -/
def stripQuotes (s : String) : String :=
  let l := match s.data with
    | '"' :: t => t
    | t => t
  match l.reverse with
  | '"' :: t => ⟨t.reverse⟩
  | _ => ⟨l⟩

/-- One CSV row as produced by the source:
`row.split(regex).map(c => c.replace(/^"|"$/g, '').trim())`. -/
def splitRow (line : String) : List String :=
  (splitQA [] line.data).map (fun c => jsTrim (stripQuotes c))

/-- Model of `csvText.split(/\r?\n/)`: split at `\r\n` or `\n`. -/
def splitLinesChars (acc : List Char) : List Char → List String
  | [] => [⟨acc.reverse⟩]
  | '\r' :: '\n' :: rest => (⟨acc.reverse⟩ : String) :: splitLinesChars [] rest
  | '\n' :: rest => (⟨acc.reverse⟩ : String) :: splitLinesChars [] rest
  | c :: rest => splitLinesChars (c :: acc) rest

def splitLines (s : String) : List String := splitLinesChars [] s.data

/-- Output unit of the parser (`Person` in `types.ts`). -/
structure Person where
  id : String
  name : String
  email : String
  meals : Q
  contribution : Q
  customBalance : Option Q
deriving DecidableEq, Repr

/-- `SheetResult` in `services/sheetService.ts`. -/
structure SheetResult where
  people : List Person
  hasContribution : Bool
  extractedRate : Option Q
deriving DecidableEq, Repr

/-! ### Insertion-ordered association maps (JS `Map`) -/

def mapSetNat (m : List (Nat × String)) (k : Nat) (v : String) : List (Nat × String) :=
  if m.any (fun p => p.1 = k) then
    m.map (fun p => if p.1 = k then (k, v) else p)
  else m ++ [(k, v)]

def lookupNat : List (Nat × String) → Nat → Option String
  | [], _ => none
  | p :: t, k => if p.1 = k then some p.2 else lookupNat t k

/-- `if (!mealCounts.has(k)) mealCounts.set(k, v)` from the source. -/
def setIfAbsent (m : List (String × Q)) (k : String) (v : Q) : List (String × Q) :=
  if m.any (fun p => p.1 = k) then m else m ++ [(k, v)]

def lookupStr : List (String × Q) → String → Option Q
  | [], _ => none
  | p :: t, k => if p.1 = k then some p.2 else lookupStr t k

/-! ### Pass 1: global scan for rate and grid structure -/

def isRateLabel (c : String) : Bool :=
  c = "mil rate" || c = "meal rate" || c = "rate"

def reservedGridName (c : String) : Bool :=
  c = "joma" || c = "total" || c = "tot / day"

/-- Mutable state of pass 1 of `parseCSV`. -/
structure St1 where
  extractedRate : Option Q
  mealCounts : List (String × Q)
  gridHeaderIdx : Option Nat
  columnToNameMap : List (Nat × String)
deriving DecidableEq, Repr

def pass1Init : St1 :=
  { extractedRate := none, mealCounts := [], gridHeaderIdx := none, columnToNameMap := [] }

/-- Step A of pass 1: find the mil rate. -/
def pass1RowA (cells lower : List String) (st : St1) : St1 :=
  match lower.findIdx? isRateLabel with
  | some i =>
    if i + 1 < cells.length then
      match parseFloatQ (cells.getD (i + 1) "") with
      | some v => if 0 < v then { st with extractedRate := some v } else st
      | none => st
    else st
  | none => st

/-- Step B of pass 1: identify a meal grid header row. -/
def pass1RowB (r : Nat) (cells lower : List String) (st : St1) : St1 :=
  if lower.headD "" = "date" then
    let step := cells.enum.foldl
      (fun (acc : List (Nat × String) × Nat) p =>
        if 0 < p.1 ∧ p.2 ≠ "" ∧ reservedGridName (jsLower p.2) = false then
          (mapSetNat acc.1 p.1 p.2, acc.2 + 1)
        else acc)
      (st.columnToNameMap, 0)
    { st with
      columnToNameMap := step.1
      gridHeaderIdx := if 1 < step.2 then some r else st.gridHeaderIdx }
  else st

/-- Step C of pass 1: capture meal totals from a grid `Total` row. -/
def pass1RowC (r : Nat) (cells lower : List String) (st : St1) : St1 :=
  match st.gridHeaderIdx with
  | some h =>
    if h < r ∧ lower.headD "" = "total" then
      { st with
        mealCounts := st.columnToNameMap.foldl
          (fun mc p =>
            if p.1 < cells.length then
              match parseFloatQ (cells.getD p.1 "") with
              | some v => setIfAbsent mc (jsLower p.2) v
              | none => mc
            else mc)
          st.mealCounts }
    else st
  | none => st

def pass1Row (r : Nat) (line : String) (st : St1) : St1 :=
  let cells := splitRow line
  let lower := cells.map jsLower
  pass1RowC r cells lower (pass1RowB r cells lower (pass1RowA cells lower st))

def pass1Go : Nat → List String → St1 → St1
  | _, [], st => st
  | r, line :: rest, st => pass1Go (r + 1) rest (pass1Row r line st)

def pass1 (lines : List String) : St1 := pass1Go 0 lines pass1Init

/-! ### Pass 2: summary table -/

def summaryMaxIdx (nI cI bI : Nat) : Nat := max nI (max cI bI)

/-- The four `break` conditions of the summary data loop, in source order. -/
def summaryStop (nI cI bI : Nat) (row : List String) : Bool :=
  row.length ≤ summaryMaxIdx nI cI bI ||
    (let name := row.getD nI ""
     name = "" || jsIncludes (jsLower name) "total" || jsLower name = "check" ||
       (row.getD cI "" = "" && row.getD bI "" = ""))

/-- Meal-count priority for a summary person: grid total, else
`cost / extractedRate` rounded to two decimals, else `0`. -/
def mealsFor (mc : List (String × Q)) (rate : Option Q) (name : String) (cost : Q) : Q :=
  match lookupStr mc (jsLower name) with
  | some g => g
  | none =>
    match rate with
    | some rt => if 0 < rt then round2 (cost / rt) else 0
    | none => 0

/-- Construction of one summary-table `Person` (frontend variant). -/
def mkSummaryPerson (mc : List (String × Q)) (rate : Option Q) (i : Nat)
    (row : List String) (nI cI bI : Nat) : Person :=
  let name := row.getD nI ""
  let cost := parseFloatOrZero (row.getD cI "")
  let bal := parseFloatOrZero (row.getD bI "")
  { id := "sheet-summary-" ++ toString i
    name := name
    email := removeWS (jsLower name) ++ "@example.com"
    meals := mealsFor mc rate name cost
    contribution := cost + bal
    customBalance := some bal }

/-- The summary-table data loop (`for (let i = r + 1; ...)`). -/
def readSummary (mc : List (String × Q)) (rate : Option Q) (nI cI bI : Nat) :
    Nat → List String → List Person
  | _, [] => []
  | i, line :: rest =>
    let row := splitRow line
    if summaryStop nI cI bI row then []
    else mkSummaryPerson mc rate i row nI cI bI :: readSummary mc rate nI cI bI (i + 1) rest

def findNameIdx (lower : List String) : Option Nat :=
  lower.findIdx? (fun c => jsIncludes c "meal details" || c = "name")

def findCostIdx (lower : List String) (nI : Nat) : Option Nat :=
  (lower.enum.find? (fun p => nI < p.1 ∧ (p.2 = "cost" ∨ jsIncludes p.2 "total cost" = true))).map (·.1)

def findBalanceIdx (lower : List String) (nI : Nat) : Option Nat :=
  (lower.enum.find? (fun p => nI < p.1 ∧ (jsIncludes p.2 "available" = true ∨ jsIncludes p.2 "balance" = true))).map (·.1)

/-- One iteration of the pass-2 loop: `some people` when row `r` is a
summary header whose data rows yield at least one person. -/
def fireResult (mc : List (String × Q)) (rate : Option Q) (r : Nat)
    (line : String) (rest : List String) : Option (List Person) :=
  let cells := splitRow line
  let lower := cells.map jsLower
  match findNameIdx lower with
  | none => none
  | some nI =>
    match findCostIdx lower nI, findBalanceIdx lower nI with
    | some cI, some bI =>
      let ps := readSummary mc rate nI cI bI (r + 1) rest
      if ps.isEmpty then none else some ps
    | _, _ => none

/-- The pass-2 loop over all rows. -/
def scan2 (mc : List (String × Q)) (rate : Option Q) : Nat → List String → Option (List Person)
  | _, [] => none
  | r, line :: rest =>
    match fireResult mc rate r line rest with
    | some ps => some ps
    | none => scan2 mc rate (r + 1) rest

/-! ### Pass 3: fallback simple list -/

/-- Plain comma split (no quote-awareness), for the fallback header row. -/
def splitCommaPlain (acc : List Char) : List Char → List String
  | [] => [⟨acc.reverse⟩]
  | ',' :: rest => (⟨acc.reverse⟩ : String) :: splitCommaPlain [] rest
  | c :: rest => splitCommaPlain (c :: acc) rest

/-- `lines[0].toLowerCase().split(',').map(h => h.replace(/^"|"$/g, '').trim())`
— note the plain (non-quote-aware) split. -/
def fallbackHeaders (line0 : String) : List String :=
  (splitCommaPlain [] (jsLower line0).data).map (fun h => jsTrim (stripQuotes h))

def mkListPerson (i : Nat) (parts : List String) (nI mI : Nat) (pIdx : Option Nat) : Person :=
  let name := parts.getD nI ""
  { id := "sheet-list-" ++ toString i
    name := name
    email := name ++ "@example.com"
    meals := parseFloatOrZero (parts.getD mI "")
    contribution :=
      match pIdx with
      | some pI => parseFloatOrZero (parts.getD pI "")
      | none => 0
    customBalance := none }

def fallbackRows (nI mI : Nat) (pIdx : Option Nat) : Nat → List String → List Person
  | _, [] => []
  | i, line :: rest =>
    let parts := splitRow line
    if parts.length ≤ nI then fallbackRows nI mI pIdx (i + 1) rest
    else if parts.getD nI "" = "" then fallbackRows nI mI pIdx (i + 1) rest
    else mkListPerson i parts nI mI pIdx :: fallbackRows nI mI pIdx (i + 1) rest

def fallbackResult (lines : List String) : SheetResult :=
  let headers := fallbackHeaders (lines.headD "")
  let nIdx := headers.findIdx? (fun h => jsIncludes h "name" || jsIncludes h "member")
  let mIdx := headers.findIdx? (fun h => jsIncludes h "meal" || jsIncludes h "count")
  let pIdx := headers.findIdx? (fun h => jsIncludes h "paid" || jsIncludes h "amount")
  match nIdx, mIdx with
  | some nI, some mI =>
    { people := fallbackRows nI mI pIdx 1 (lines.drop 1)
      hasContribution := pIdx.isSome
      extractedRate := none }
  | _, _ => { people := [], hasContribution := false, extractedRate := none }

/-- The frontend `parseCSV` (services/sheetService.ts). -/
def parseCSV (csvText : String) : SheetResult :=
  let lines := splitLines csvText
  if lines.length < 2 then { people := [], hasContribution := false, extractedRate := none }
  else
    let st := pass1 lines
    match scan2 st.mealCounts st.extractedRate 0 lines with
    | some people => { people := people, hasContribution := true, extractedRate := st.extractedRate }
    | none => fallbackResult lines

/-! ### Server-side duplicate (`SchedulerService.parseCSV`)

Pass 1 and the header/termination logic of pass 2 are textually identical
to the frontend, so `pass1`, `readSummary`-style recursion and the index
search functions are shared; the differences are the emitted `email`
field (always `''`), the absence of the fallback simple-list mode, and a
result without `hasContribution`. -/

structure SchedResult where
  people : List Person
  extractedRate : Option Q
deriving DecidableEq, Repr

def schedMkSummaryPerson (mc : List (String × Q)) (rate : Option Q) (i : Nat)
    (row : List String) (nI cI bI : Nat) : Person :=
  let name := row.getD nI ""
  let cost := parseFloatOrZero (row.getD cI "")
  let bal := parseFloatOrZero (row.getD bI "")
  { id := "sheet-summary-" ++ toString i
    name := name
    email := ""
    meals := mealsFor mc rate name cost
    contribution := cost + bal
    customBalance := some bal }

def schedReadSummary (mc : List (String × Q)) (rate : Option Q) (nI cI bI : Nat) :
    Nat → List String → List Person
  | _, [] => []
  | i, line :: rest =>
    let row := splitRow line
    if summaryStop nI cI bI row then []
    else schedMkSummaryPerson mc rate i row nI cI bI :: schedReadSummary mc rate nI cI bI (i + 1) rest

def schedFireResult (mc : List (String × Q)) (rate : Option Q) (r : Nat)
    (line : String) (rest : List String) : Option (List Person) :=
  let cells := splitRow line
  let lower := cells.map jsLower
  match findNameIdx lower with
  | none => none
  | some nI =>
    match findCostIdx lower nI, findBalanceIdx lower nI with
    | some cI, some bI =>
      let ps := schedReadSummary mc rate nI cI bI (r + 1) rest
      if ps.isEmpty then none else some ps
    | _, _ => none

def schedScan2 (mc : List (String × Q)) (rate : Option Q) : Nat → List String → Option (List Person)
  | _, [] => none
  | r, line :: rest =>
    match schedFireResult mc rate r line rest with
    | some ps => some ps
    | none => schedScan2 mc rate (r + 1) rest

/-- The scheduler's private `parseCSV` (server/services/schedulerService.ts). -/
def schedParseCSV (csvText : String) : SchedResult :=
  let lines := splitLines csvText
  if lines.length < 2 then { people := [], extractedRate := none }
  else
    let st := pass1 lines
    match schedScan2 st.mealCounts st.extractedRate 0 lines with
    | some people => { people := people, extractedRate := st.extractedRate }
    | none => { people := [], extractedRate := none }

/-! ### Downstream balance computation (`App.tsx`, the `useMemo` block) -/

/-- `balance = customBalance if defined, else contribution - meals * rate`. -/
def balanceFor (p : Person) (rate : Q) : Q :=
  match p.customBalance with
  | some b => b
  | none => p.contribution - p.meals * rate

/-- Rate priority in `App.tsx`: sheet rate when positive, else
`totalContribution / totalMeals` when `totalMeals > 0`, else `0`
(`people.reduce((sum, p) => sum + p.contribution, 0)` is a left fold). -/
def appRate (people : List Person) (sheetMealRate : Option Q) : Q :=
  let totalC := people.foldl (fun s p => s + p.contribution) 0
  let totalM := people.foldl (fun s p => s + p.meals) 0
  match sheetMealRate with
  | some r => if 0 < r then r else if 0 < totalM then totalC / totalM else 0
  | none => if 0 < totalM then totalC / totalM else 0

/-! ### Derived views of the code, used to state the claims -/

/-- The rate candidate a single row contributes in pass 1: the first rate
label of the row, its successor cell parsed, kept only when positive
(mirrors step A of `pass1Row`). -/
def rowRateCand (line : String) : Option Q :=
  match ((splitRow line).map jsLower).findIdx? isRateLabel with
  | some i =>
    if i + 1 < (splitRow line).length then
      match parseFloatQ ((splitRow line).getD (i + 1) "") with
      | some v => if 0 < v then some v else none
      | none => none
    else none
  | none => none

/-- The pass-2 step at absolute row `k` of `lines`. -/
def fireAt (mc : List (String × Q)) (rate : Option Q) (lines : List String) (k : Nat) :
    Option (List Person) :=
  fireResult mc rate k (lines.getD k "") (lines.drop (k + 1))

/-- Erase the `email` field (the only per-person difference between the
frontend and scheduler summary records). -/
def stripEmail (p : Person) : Person := { p with email := "" }

/-- All cells of a row parse non-negative (with `NaN` collapsing to 0). -/
def RowCellsNonneg (line : String) : Prop :=
  ∀ cell ∈ splitRow line, (0 : Q) ≤ parseFloatOrZero cell

/-- The name a single row contributes for grid column `c`: on a `date`
row, the last cell at index `c` that is a valid name (non-empty, not a
reserved label, not the first column). -/
def colCand (c : Nat) (line : String) : Option String :=
  if ((splitRow line).map jsLower).headD "" = "date" then
    (((splitRow line).enum.filter
        (fun p => decide (p.1 = c ∧ 0 < p.1 ∧ p.2 ≠ "" ∧
          reservedGridName (jsLower p.2) = false))).getLast?).map (·.2)
  else none

/-! ### Models of claim wordings (used only to exhibit counterexamples)

These definitions follow the words of the spec/claims where they diverge
from the code; each is compared against the code-derived definitions
above. -/

/-- Modelled from the wording of claim C3: every rate-label occurrence in
every row is a candidate (not just the first label of a row), and the
last candidate whose successor cell parses as a positive float wins. -/
def claimC3RowCands (line : String) : List Q :=
  let cells := splitRow line
  let lower := cells.map jsLower
  lower.enum.filterMap (fun p =>
    if isRateLabel p.2 then
      match parseFloatQ (cells.getD (p.1 + 1) "") with
      | some v => if 0 < v then some v else none
      | none => none
    else none)

def claimC3Rate (lines : List String) : Option Q :=
  ((lines.map claimC3RowCands).flatten).getLast?

/-- Modelled from the wording of claim C2: the meal count recorded for a
name comes from the first `Total` row strictly below the (final) grid
header only. -/
def claimC2FirstTotalCounts (lines : List String) : List (String × Q) :=
  let st := pass1 lines
  match st.gridHeaderIdx with
  | none => []
  | some h =>
    match lines.enum.find?
        (fun p => h < p.1 ∧ ((splitRow p.2).map jsLower).headD "" = "total") with
    | none => []
    | some q =>
      let cells := splitRow q.2
      st.columnToNameMap.foldl
        (fun mc p =>
          if p.1 < cells.length then
            match parseFloatQ (cells.getD p.1 "") with
            | some v => setIfAbsent mc (jsLower p.2) v
            | none => mc
          else mc)
        []

/-- A row qualifying as a meal-grid header (first cell `date`, more than
one valid name cell). -/
def claimC5Qualifies (line : String) : Bool :=
  let cells := splitRow line
  let lower := cells.map jsLower
  lower.headD "" = "date" &&
    1 < cells.enum.countP
      (fun p => decide (0 < p.1 ∧ p.2 ≠ "" ∧ reservedGridName (jsLower p.2) = false))

/-- The column map built from one header row alone. -/
def claimC5OwnMap (line : String) : List (Nat × String) :=
  (splitRow line).enum.foldl
    (fun m p =>
      if 0 < p.1 ∧ p.2 ≠ "" ∧ reservedGridName (jsLower p.2) = false then
        mapSetNat m p.1 p.2
      else m)
    []

/-- Modelled from the wording of claim C5: the column-to-name map of the
last qualifying header replaces those of all earlier headers. -/
def claimC5ColMap (lines : List String) : List (Nat × String) :=
  match (lines.filter claimC5Qualifies).getLast? with
  | none => []
  | some hline => claimC5OwnMap hline

/-- Modelled from the wording of claim C5: grid totals attributed using
only the last qualifying header's own column map. -/
def claimC5Counts (lines : List String) : List (String × Q) :=
  match (lines.enum.filter (fun p => claimC5Qualifies p.2)).getLast? with
  | none => []
  | some hq =>
    let m := claimC5OwnMap hq.2
    lines.enum.foldl
      (fun mc p =>
        if hq.1 < p.1 ∧ ((splitRow p.2).map jsLower).headD "" = "total" then
          let cells := splitRow p.2
          m.foldl
            (fun mc2 q =>
              if q.1 < cells.length then
                match parseFloatQ (cells.getD q.1 "") with
                | some v => setIfAbsent mc2 (jsLower q.2) v
                | none => mc2
              else mc2)
            mc
        else mc)
      []

/-! ### Helper lemmas -/

theorem getD_mem {α : Type} (l : List α) (i : Nat) (d : α) (h : i < l.length) :
    l.getD i d ∈ l := by
  induction l generalizing i with
  | nil => simp at h
  | cons a t ih =>
    cases i with
    | zero => simp [List.getD]
    | succ j =>
      have : t.getD j d ∈ t := ih j (by simpa using h)
      simp [List.getD] at this ⊢
      exact Or.inr this

theorem lookupStr_mem {m : List (String × Q)} {k : String} {v : Q}
    (h : lookupStr m k = some v) : (k, v) ∈ m := by
  induction m with
  | nil => cases h
  | cons a t ih =>
    rw [lookupStr] at h
    by_cases ha : a.1 = k
    · rw [if_pos ha] at h
      cases h
      obtain ⟨a1, a2⟩ := a
      cases ha
      exact List.mem_cons_self _ _
    · rw [if_neg ha] at h
      exact List.mem_cons_of_mem _ (ih h)

theorem lookupStr_append_of_some {m l : List (String × Q)} {k : String} {v : Q}
    (h : lookupStr m k = some v) : lookupStr (m ++ l) k = some v := by
  induction m with
  | nil => cases h
  | cons a t ih =>
    rw [lookupStr] at h
    rw [List.cons_append, lookupStr]
    by_cases ha : a.1 = k
    · rwa [if_pos ha] at h ⊢
    · rw [if_neg ha] at h ⊢
      exact ih h

theorem lookupStr_setIfAbsent_of_some {m : List (String × Q)} {k : String} {v : Q}
    (k' : String) (v' : Q) (h : lookupStr m k = some v) :
    lookupStr (setIfAbsent m k' v') k = some v := by
  unfold setIfAbsent
  split
  · exact h
  · exact lookupStr_append_of_some h

theorem mem_setIfAbsent {m : List (String × Q)} {k : String} {v : Q} {x : String × Q}
    (h : x ∈ setIfAbsent m k v) : x ∈ m ∨ x = (k, v) := by
  unfold setIfAbsent at h
  split at h
  · exact Or.inl h
  · rcases List.mem_append.mp h with h1 | h2
    · exact Or.inl h1
    · simp at h2; exact Or.inr h2

/-- A left fold whose step preserves a predicate preserves it overall. -/
theorem foldl_preserve {α β : Type} {P : α → Prop} (f : α → β → α)
    (hstep : ∀ a b, P a → P (f a b)) :
    ∀ (l : List β) (a : α), P a → P (l.foldl f a) := by
  intro l
  induction l with
  | nil => intro a ha; simpa using ha
  | cons b t ih => intro a ha; simpa using ih (f a b) (hstep a b ha)

/-! Projections of the three pass-1 steps. -/

theorem pass1RowA_mealCounts (cells lower : List String) (st : St1) :
    (pass1RowA cells lower st).mealCounts = st.mealCounts := by
  unfold pass1RowA
  repeat' split
  all_goals rfl

theorem pass1RowA_colMap (cells lower : List String) (st : St1) :
    (pass1RowA cells lower st).columnToNameMap = st.columnToNameMap := by
  unfold pass1RowA
  repeat' split
  all_goals rfl

theorem pass1RowA_header (cells lower : List String) (st : St1) :
    (pass1RowA cells lower st).gridHeaderIdx = st.gridHeaderIdx := by
  unfold pass1RowA
  repeat' split
  all_goals rfl

theorem pass1RowB_rate (r : Nat) (cells lower : List String) (st : St1) :
    (pass1RowB r cells lower st).extractedRate = st.extractedRate := by
  unfold pass1RowB
  repeat' split
  all_goals rfl

theorem pass1RowB_mealCounts (r : Nat) (cells lower : List String) (st : St1) :
    (pass1RowB r cells lower st).mealCounts = st.mealCounts := by
  unfold pass1RowB
  repeat' split
  all_goals rfl

theorem pass1RowC_rate (r : Nat) (cells lower : List String) (st : St1) :
    (pass1RowC r cells lower st).extractedRate = st.extractedRate := by
  unfold pass1RowC
  repeat' split
  all_goals rfl

theorem pass1RowC_colMap (r : Nat) (cells lower : List String) (st : St1) :
    (pass1RowC r cells lower st).columnToNameMap = st.columnToNameMap := by
  unfold pass1RowC
  repeat' split
  all_goals rfl

theorem pass1RowC_header (r : Nat) (cells lower : List String) (st : St1) :
    (pass1RowC r cells lower st).gridHeaderIdx = st.gridHeaderIdx := by
  unfold pass1RowC
  repeat' split
  all_goals rfl

/-- The extracted rate evolves exactly by the per-row candidate. -/
theorem pass1Row_rate (r : Nat) (line : String) (st : St1) :
    (pass1Row r line st).extractedRate =
      match rowRateCand line with
      | some v => some v
      | none => st.extractedRate := by
  unfold pass1Row
  rw [pass1RowC_rate, pass1RowB_rate]
  unfold pass1RowA rowRateCand
  rcases h1 : ((splitRow line).map jsLower).findIdx? isRateLabel with _ | i
  · rfl
  · by_cases h2 : i + 1 < (splitRow line).length
    · simp only [if_pos h2]
      rcases h3 : parseFloatQ ((splitRow line).getD (i + 1) "") with _ | v
      · rfl
      · by_cases h4 : 0 < v
        · simp only [if_pos h4]
        · simp only [if_neg h4]
    · simp only [if_neg h2]

/-- The rate after pass 1 is the last per-row candidate, or the initial
value when no row produced one. -/
theorem pass1Go_rate : ∀ (ls : List String) (r : Nat) (st : St1),
    (pass1Go r ls st).extractedRate =
      match (ls.filterMap rowRateCand).getLast? with
      | some v => some v
      | none => st.extractedRate := by
  intro ls
  induction ls with
  | nil => intro r st; rfl
  | cons line rest ih =>
    intro r st
    show (pass1Go (r + 1) rest (pass1Row r line st)).extractedRate = _
    rw [ih, pass1Row_rate]
    rcases hc : rowRateCand line with _ | v
    · rw [List.filterMap_cons_none hc]
    · rw [List.filterMap_cons_some hc, List.getLast?_cons]
      rcases hl : (rest.filterMap rowRateCand).getLast? with _ | w <;> rfl

theorem rowRateCand_pos {line : String} {v : Q} (h : rowRateCand line = some v) : 0 < v := by
  unfold rowRateCand at h
  repeat' split at h
  all_goals simp_all

theorem pass1_rate_pos (lines : List String) (v : Q)
    (h : (pass1 lines).extractedRate = some v) : 0 < v := by
  rw [pass1, pass1Go_rate] at h
  rcases hl : ((lines.filterMap rowRateCand).getLast?) with _ | w
  · rw [hl] at h
    simp [pass1Init] at h
  · rw [hl] at h
    simp at h
    have hm := List.mem_of_getLast?_eq_some hl
    rcases List.mem_filterMap.mp hm with ⟨line, _, hc⟩
    exact h ▸ rowRateCand_pos hc

theorem fallbackResult_rate (lines : List String) :
    (fallbackResult lines).extractedRate = none := by
  simp only [fallbackResult]
  split
  all_goals rfl

/-- A returned `extractedRate` always comes from pass 1 (the summary
branch is the only one that forwards it). -/
theorem parseCSV_rate_some {csv : String} {v : Q}
    (h : (parseCSV csv).extractedRate = some v) :
    (pass1 (splitLines csv)).extractedRate = some v := by
  simp only [parseCSV] at h
  split at h
  · simp at h
  · split at h
    · exact h
    · rw [fallbackResult_rate] at h
      simp at h

/-- The summary data loop reads exactly the rows up to the first
terminating row, emitting one person per row read. -/
theorem readSummary_eq_takeWhile (mc : List (String × Q)) (rate : Option Q) (nI cI bI : Nat) :
    ∀ (ls : List String) (i : Nat),
      readSummary mc rate nI cI bI i ls =
        ((List.enumFrom i ls).takeWhile
            (fun q => !(summaryStop nI cI bI (splitRow q.2)))).map
          (fun q => mkSummaryPerson mc rate q.1 (splitRow q.2) nI cI bI) := by
  intro ls
  induction ls with
  | nil => intro i; rfl
  | cons line rest ih =>
    intro i
    by_cases hs : summaryStop nI cI bI (splitRow line) = true
    · simp [readSummary, hs, List.enumFrom, List.takeWhile_cons]
    · rw [Bool.not_eq_true] at hs
      simp [readSummary, hs, List.enumFrom, List.takeWhile_cons, ih]

theorem readSummary_mem {mc : List (String × Q)} {rate : Option Q} {nI cI bI : Nat} :
    ∀ {ls : List String} {i : Nat} {p : Person},
      p ∈ readSummary mc rate nI cI bI i ls →
      ∃ j line, line ∈ ls ∧ summaryStop nI cI bI (splitRow line) = false ∧
        p = mkSummaryPerson mc rate j (splitRow line) nI cI bI := by
  intro ls
  induction ls with
  | nil => intro i p h; simp [readSummary] at h
  | cons line rest ih =>
    intro i p h
    simp only [readSummary] at h
    by_cases hs : summaryStop nI cI bI (splitRow line) = true
    · rw [if_pos hs] at h; simp at h
    · rw [Bool.not_eq_true] at hs
      rw [if_neg (by simp [hs])] at h
      rcases List.mem_cons.mp h with h | h
      · exact ⟨i, line, List.mem_cons_self line rest, hs, h⟩
      · rcases ih h with ⟨j, l', hmem, hstop, hp⟩
        exact ⟨j, l', List.mem_cons_of_mem _ hmem, hstop, hp⟩

theorem fireResult_some {mc : List (String × Q)} {rate : Option Q} {r : Nat}
    {line : String} {rest : List String} {ps : List Person}
    (h : fireResult mc rate r line rest = some ps) :
    ∃ nI cI bI, ps = readSummary mc rate nI cI bI (r + 1) rest ∧ ps ≠ [] := by
  simp only [fireResult] at h
  rcases hn : findNameIdx ((splitRow line).map jsLower) with _ | nI
  · rw [hn] at h; simp at h
  · rw [hn] at h
    simp only [] at h
    rcases hc : findCostIdx ((splitRow line).map jsLower) nI with _ | cI
    · rcases hb : findBalanceIdx ((splitRow line).map jsLower) nI with _ | bI
      · rw [hc, hb] at h; simp at h
      · rw [hc, hb] at h; simp at h
    · rcases hb : findBalanceIdx ((splitRow line).map jsLower) nI with _ | bI
      · rw [hc, hb] at h; simp at h
      · rw [hc, hb] at h
        simp only [] at h
        by_cases he : (readSummary mc rate nI cI bI (r + 1) rest).isEmpty = true
        · rw [if_pos he] at h; cases h
        · rw [if_neg he] at h
          cases h
          refine ⟨nI, cI, bI, rfl, ?_⟩
          intro hnil
          rw [hnil] at he
          simp at he

theorem fireResult_nil_rest (mc : List (String × Q)) (rate : Option Q) (r : Nat)
    (line : String) : fireResult mc rate r line [] = none := by
  simp only [fireResult]
  repeat' split
  all_goals simp_all [readSummary]

theorem scan2_some {mc : List (String × Q)} {rate : Option Q} :
    ∀ {ls : List String} {r : Nat} {ps : List Person}, scan2 mc rate r ls = some ps →
      ∃ nI cI bI j ls', ps = readSummary mc rate nI cI bI j ls' ∧ ps ≠ [] ∧
        ∀ x ∈ ls', x ∈ ls := by
  intro ls
  induction ls with
  | nil => intro r ps h; simp [scan2] at h
  | cons line rest ih =>
    intro r ps h
    rw [scan2] at h
    rcases hf : fireResult mc rate r line rest with _ | ps'
    · rw [hf] at h
      simp only [] at h
      rcases ih h with ⟨nI, cI, bI, j, ls', hps, hne, hsub⟩
      exact ⟨nI, cI, bI, j, ls', hps, hne, fun x hx => List.mem_cons_of_mem _ (hsub x hx)⟩
    · rw [hf] at h
      simp only [] at h
      cases h
      rcases fireResult_some hf with ⟨nI, cI, bI, hps, hne⟩
      exact ⟨nI, cI, bI, r + 1, rest, hps, hne, fun x hx => List.mem_cons_of_mem _ hx⟩

theorem scan2_singleton (mc : List (String × Q)) (rate : Option Q) (r : Nat) (x : String) :
    scan2 mc rate r [x] = none := by
  rw [scan2, fireResult_nil_rest]
  rfl

theorem scan2_of_fireAt {mc : List (String × Q)} {rate : Option Q} :
    ∀ (ls : List String) (r k : Nat) (ps : List Person),
      fireResult mc rate (r + k) (ls.getD k "") (ls.drop (k + 1)) = some ps →
      (∀ j, j < k → fireResult mc rate (r + j) (ls.getD j "") (ls.drop (j + 1)) = none) →
      scan2 mc rate r ls = some ps := by
  intro ls
  induction ls with
  | nil =>
    intro r k ps h _
    have h' : fireResult mc rate (r + k) "" [] = some ps := by
      simpa [List.getD] using h
    rw [fireResult_nil_rest] at h'
    cases h'
  | cons line rest ih =>
    intro r k ps h hj
    cases k with
    | zero =>
      have h0 : fireResult mc rate r line rest = some ps := by simpa using h
      rw [scan2, h0]
    | succ k' =>
      have h0 : fireResult mc rate r line rest = none := by
        simpa using hj 0 (Nat.succ_pos k')
      rw [scan2, h0]
      apply ih (r + 1) k' ps
      · have e : r + (k' + 1) = (r + 1) + k' := by omega
        simpa [e] using h
      · intro j hjlt
        have hx := hj (j + 1) (by omega)
        have e : r + (j + 1) = (r + 1) + j := by omega
        simpa [e] using hx

theorem scan2_some_len {mc : List (String × Q)} {rate : Option Q} {ls : List String}
    {r : Nat} {ps : List Person} (h : scan2 mc rate r ls = some ps) : ¬ ls.length < 2 := by
  intro hl
  rcases ls with _ | ⟨x, _ | ⟨y, t⟩⟩
  · simp [scan2] at h
  · rw [scan2_singleton] at h; cases h
  · simp at hl; omega

theorem parseCSV_of_scan2_some {csv : String} {ps : List Person}
    (h : scan2 (pass1 (splitLines csv)).mealCounts (pass1 (splitLines csv)).extractedRate 0
        (splitLines csv) = some ps) :
    parseCSV csv =
      { people := ps, hasContribution := true,
        extractedRate := (pass1 (splitLines csv)).extractedRate } := by
  simp only [parseCSV]
  rw [if_neg (scan2_some_len h), h]

theorem parseCSV_of_scan2_none {csv : String} (h2 : ¬ (splitLines csv).length < 2)
    (h : scan2 (pass1 (splitLines csv)).mealCounts (pass1 (splitLines csv)).extractedRate 0
        (splitLines csv) = none) :
    parseCSV csv = fallbackResult (splitLines csv) := by
  simp only [parseCSV]
  rw [if_neg h2, h]

theorem parseCSV_short {csv : String} (h : (splitLines csv).length < 2) :
    parseCSV csv = { people := [], hasContribution := false, extractedRate := none } := by
  simp only [parseCSV]
  rw [if_pos h]

/-! Order facts about `Q` (valid readings because every value built by
the embedding has a positive denominator). -/

theorem Q.zero_le_iff (q : Q) : (0 : Q) ≤ q ↔ 0 ≤ q.num := by
  show (0 : Int) * (q.den : Int) ≤ q.num * ((1 : Nat) : Int) ↔ 0 ≤ q.num
  omega

theorem Q.zero_lt_iff (q : Q) : (0 : Q) < q ↔ 0 < q.num := by
  show (0 : Int) * (q.den : Int) < q.num * ((1 : Nat) : Int) ↔ 0 < q.num
  omega

theorem Q.div_num_nonneg {a b : Q} (ha : 0 ≤ a.num) (hb : 0 < b.num) : 0 ≤ (a / b).num := by
  show 0 ≤ (if b.num = 0 then (⟨0, 1⟩ : Q) else
    ⟨Int.sign b.num * a.num * b.den, a.den * b.num.natAbs⟩).num
  rw [if_neg (by omega)]
  simp only []
  rw [Int.sign_eq_one_of_pos hb, one_mul]
  exact mul_nonneg ha (Int.natCast_nonneg b.den)

theorem round2_num_nonneg {q : Q} (h : 0 ≤ q.num) : 0 ≤ (round2 q).num := by
  show 0 ≤ Int.fdiv (q.num * 200 + q.den) (2 * q.den)
  apply Int.fdiv_nonneg
  · have : (0 : Int) ≤ (q.den : Int) := Int.natCast_nonneg _
    omega
  · omega

/-! Preservation of already-recorded meal counts (the "first `Total` row
wins" rule). -/

theorem pass1RowC_mealCounts_preserve (r : Nat) (cells lower : List String) (st : St1)
    (k : String) (v : Q) (h : lookupStr st.mealCounts k = some v) :
    lookupStr (pass1RowC r cells lower st).mealCounts k = some v := by
  unfold pass1RowC
  split
  · split
    · simp only []
      apply foldl_preserve (P := fun mc => lookupStr mc k = some v)
      · intro mc p hp
        split
        · split
          · exact lookupStr_setIfAbsent_of_some _ _ hp
          · exact hp
        · exact hp
      · exact h
    · exact h
  · exact h

theorem pass1Row_mealCounts_preserve (r : Nat) (line : String) (st : St1)
    (k : String) (v : Q) (h : lookupStr st.mealCounts k = some v) :
    lookupStr (pass1Row r line st).mealCounts k = some v := by
  simp only [pass1Row]
  apply pass1RowC_mealCounts_preserve
  rw [pass1RowB_mealCounts, pass1RowA_mealCounts]
  exact h

/-! Non-negativity of recorded meal counts when every parseable cell of
the input parses non-negative. -/

theorem pass1RowC_mealCounts_nonneg (r : Nat) (cells lower : List String) (st : St1)
    (hc : ∀ cell ∈ cells, (0 : Q) ≤ parseFloatOrZero cell)
    (hst : ∀ kv ∈ st.mealCounts, (0 : Q) ≤ kv.2) :
    ∀ kv ∈ (pass1RowC r cells lower st).mealCounts, (0 : Q) ≤ kv.2 := by
  unfold pass1RowC
  split
  · split
    · simp only []
      intro kv hkv
      refine foldl_preserve (P := fun mc => kv ∈ mc → (0 : Q) ≤ kv.2) _ ?_ _ _ ?_ hkv
      · intro mc p hp hmem
        by_cases hlt : p.1 < cells.length
        · rw [if_pos hlt] at hmem
          rcases hpf : parseFloatQ (cells.getD p.1 "") with _ | w
          · rw [hpf] at hmem
            exact hp hmem
          · rw [hpf] at hmem
            rcases mem_setIfAbsent hmem with h1 | h2
            · exact hp h1
            · subst h2
              have hcell := hc (cells.getD p.1 "") (getD_mem cells p.1 "" hlt)
              rw [parseFloatOrZero, hpf] at hcell
              exact hcell
        · rw [if_neg hlt] at hmem
          exact hp hmem
      · intro hmem
        exact hst kv hmem
    · exact hst
  · exact hst

theorem pass1Row_mealCounts_nonneg (r : Nat) (line : String) (st : St1)
    (hc : RowCellsNonneg line)
    (hst : ∀ kv ∈ st.mealCounts, (0 : Q) ≤ kv.2) :
    ∀ kv ∈ (pass1Row r line st).mealCounts, (0 : Q) ≤ kv.2 := by
  simp only [pass1Row]
  apply pass1RowC_mealCounts_nonneg
  · exact hc
  · rw [pass1RowB_mealCounts, pass1RowA_mealCounts]
    exact hst

theorem pass1Go_mealCounts_nonneg :
    ∀ (ls : List String) (r : Nat) (st : St1),
      (∀ line ∈ ls, RowCellsNonneg line) →
      (∀ kv ∈ st.mealCounts, (0 : Q) ≤ kv.2) →
      ∀ kv ∈ (pass1Go r ls st).mealCounts, (0 : Q) ≤ kv.2 := by
  intro ls
  induction ls with
  | nil => intro r st _ hst; exact hst
  | cons line rest ih =>
    intro r st hls hst
    exact ih (r + 1) (pass1Row r line st)
      (fun l hl => hls l (List.mem_cons_of_mem _ hl))
      (pass1Row_mealCounts_nonneg r line st (hls line (List.mem_cons_self _ _)) hst)

theorem pass1_mealCounts_nonneg (lines : List String)
    (h : ∀ line ∈ lines, RowCellsNonneg line) :
    ∀ kv ∈ (pass1 lines).mealCounts, (0 : Q) ≤ kv.2 :=
  pass1Go_mealCounts_nonneg lines 0 pass1Init h
    (by intro kv hkv; simp [pass1Init] at hkv)

/-- The meal-count priority yields a non-negative value whenever the
recorded counts are non-negative, the rate (if any) is positive, and the
cost is non-negative. -/
theorem mealsFor_nonneg (mc : List (String × Q)) (rate : Option Q) (name : String) (cost : Q)
    (hmc : ∀ kv ∈ mc, (0 : Q) ≤ kv.2) (hrate : ∀ v, rate = some v → 0 < v)
    (hcost : (0 : Q) ≤ cost) : (0 : Q) ≤ mealsFor mc rate name cost := by
  unfold mealsFor
  rcases hl : lookupStr mc (jsLower name) with _ | g
  · simp only []
    rcases rate with _ | rt
    · simp only []
      decide
    · simp only []
      by_cases hrt : (0 : Q) < rt
      · rw [if_pos hrt]
        rw [Q.zero_le_iff]
        apply round2_num_nonneg
        apply Q.div_num_nonneg
        · exact (Q.zero_le_iff cost).mp hcost
        · exact (Q.zero_lt_iff rt).mp (hrate rt rfl)
      · rw [if_neg hrt]
        decide
  · simp only []
    exact hmc _ (lookupStr_mem hl)

/-! Lookup behaviour of the column map (JS `Map.set` semantics). -/

theorem lookupNat_map_set_self (m : List (Nat × String)) (k : Nat) (v : String)
    (hany : m.any (fun p => p.1 = k) = true) :
    lookupNat (m.map (fun p => if p.1 = k then (k, v) else p)) k = some v := by
  induction m with
  | nil => simp at hany
  | cons a t ih =>
    simp only [List.map_cons]
    by_cases ha : a.1 = k
    · rw [if_pos ha]
      simp [lookupNat]
    · rw [if_neg ha]
      rw [lookupNat, if_neg ha]
      exact ih (by simpa [ha] using hany)

theorem lookupNat_map_set_ne (m : List (Nat × String)) (k : Nat) (v : String) (k' : Nat)
    (hne : k' ≠ k) :
    lookupNat (m.map (fun p => if p.1 = k then (k, v) else p)) k' = lookupNat m k' := by
  induction m with
  | nil => rfl
  | cons a t ih =>
    simp only [List.map_cons]
    by_cases ha : a.1 = k
    · rw [if_pos ha, lookupNat, lookupNat,
        if_neg (show ¬((k, v).1 = k') from fun hh => hne (hh.symm)),
        if_neg (show ¬(a.1 = k') from fun hh => hne ((ha ▸ hh).symm))]
      exact ih
    · rw [if_neg ha, lookupNat, lookupNat]
      by_cases ha' : a.1 = k'
      · rw [if_pos ha', if_pos ha']
      · rw [if_neg ha', if_neg ha']
        exact ih

theorem lookupNat_append (m l : List (Nat × String)) (k : Nat) :
    lookupNat (m ++ l) k =
      match lookupNat m k with
      | some v => some v
      | none => lookupNat l k := by
  induction m with
  | nil => rfl
  | cons a t ih =>
    rw [List.cons_append, lookupNat, lookupNat]
    by_cases ha : a.1 = k
    · rw [if_pos ha, if_pos ha]
    · rw [if_neg ha, if_neg ha, ih]

theorem lookupNat_eq_none_of_any_false (m : List (Nat × String)) (k : Nat)
    (h : m.any (fun p => p.1 = k) = false) : lookupNat m k = none := by
  induction m with
  | nil => rfl
  | cons a t ih =>
    simp only [List.any_cons, Bool.or_eq_false_iff] at h
    rw [lookupNat, if_neg (by simpa using h.1)]
    exact ih h.2

theorem lookupNat_mapSetNat (m : List (Nat × String)) (k : Nat) (v : String) (k' : Nat) :
    lookupNat (mapSetNat m k v) k' = if k' = k then some v else lookupNat m k' := by
  unfold mapSetNat
  by_cases hany : m.any (fun p => p.1 = k) = true
  · rw [if_pos hany]
    by_cases hk : k' = k
    · rw [if_pos hk, hk]
      exact lookupNat_map_set_self m k v hany
    · rw [if_neg hk]
      exact lookupNat_map_set_ne m k v k' hk
  · rw [if_neg hany, lookupNat_append]
    have hfalse : m.any (fun p => p.1 = k) = false := by
      cases h2 : m.any (fun p => p.1 = k)
      · rfl
      · exact absurd h2 hany
    by_cases hk : k' = k
    · rw [if_pos hk]
      have hnone : lookupNat m k' = none :=
        hk ▸ lookupNat_eq_none_of_any_false m k hfalse
      rw [hnone]
      simp [lookupNat, hk]
    · rw [if_neg hk]
      rcases hm : lookupNat m k' with _ | w
      · simp only []
        rw [lookupNat, if_neg (fun hh => hk hh.symm)]
        rfl
      · rfl

/-- The grid-header fold records, for each column, the last valid cell at
that column (overwriting), leaving other columns untouched. -/
theorem foldB_lookup (c : Nat) :
    ∀ (l : List (Nat × String)) (acc : List (Nat × String) × Nat),
      lookupNat (l.foldl
          (fun (acc : List (Nat × String) × Nat) p =>
            if 0 < p.1 ∧ p.2 ≠ "" ∧ reservedGridName (jsLower p.2) = false then
              (mapSetNat acc.1 p.1 p.2, acc.2 + 1)
            else acc)
          acc).1 c =
        match (l.filter
            (fun p => decide (p.1 = c ∧ 0 < p.1 ∧ p.2 ≠ "" ∧
              reservedGridName (jsLower p.2) = false))).getLast? with
        | some p => some p.2
        | none => lookupNat acc.1 c := by
  intro l
  induction l with
  | nil => intro acc; rfl
  | cons p t ih =>
    intro acc
    rw [List.foldl_cons]
    by_cases hv : 0 < p.1 ∧ p.2 ≠ "" ∧ reservedGridName (jsLower p.2) = false
    · rw [if_pos hv, ih]
      by_cases hc : p.1 = c
      · subst hc
        have hpred : (decide (p.1 = p.1 ∧ 0 < p.1 ∧ p.2 ≠ "" ∧
            reservedGridName (jsLower p.2) = false)) = true := by
          simp [hv.1, hv.2.1, hv.2.2]
        rw [@List.filter_cons_of_pos _ (fun q => decide (q.1 = p.1 ∧ 0 < q.1 ∧ q.2 ≠ "" ∧
          reservedGridName (jsLower q.2) = false)) p t hpred, List.getLast?_cons]
        rcases hl : (t.filter _).getLast? with _ | q
        · simp [lookupNat_mapSetNat]
        · rfl
      · have hpred : (decide (p.1 = c ∧ 0 < p.1 ∧ p.2 ≠ "" ∧
            reservedGridName (jsLower p.2) = false)) = false := by
          simp [hc]
        rw [@List.filter_cons_of_neg _ (fun q => decide (q.1 = c ∧ 0 < q.1 ∧ q.2 ≠ "" ∧
          reservedGridName (jsLower q.2) = false)) p t (by simp [hpred])]
        rcases hl : (t.filter _).getLast? with _ | q
        · simp only []
          rw [lookupNat_mapSetNat, if_neg (fun hh => hc hh.symm)]
        · rfl
    · have hpred : (decide (p.1 = c ∧ 0 < p.1 ∧ p.2 ≠ "" ∧
          reservedGridName (jsLower p.2) = false)) = false := by
        simp only [decide_eq_false_iff_not]
        rintro ⟨-, h2⟩
        exact hv h2
      rw [@List.filter_cons_of_neg _ (fun q => decide (q.1 = c ∧ 0 < q.1 ∧ q.2 ≠ "" ∧
        reservedGridName (jsLower q.2) = false)) p t (by simp [hpred]), if_neg hv, ih]

theorem pass1Row_colMap (r : Nat) (line : String) (st : St1) (c : Nat) :
    lookupNat (pass1Row r line st).columnToNameMap c =
      match colCand c line with
      | some nm => some nm
      | none => lookupNat st.columnToNameMap c := by
  simp only [pass1Row]
  rw [pass1RowC_colMap]
  unfold pass1RowB colCand
  by_cases hd : ((splitRow line).map jsLower).headD "" = "date"
  · rw [if_pos hd, if_pos hd]
    simp only []
    rw [foldB_lookup]
    rcases hl : (((splitRow line).enum.filter
        (fun p => decide (p.1 = c ∧ 0 < p.1 ∧ p.2 ≠ "" ∧
          reservedGridName (jsLower p.2) = false)))).getLast? with _ | q
    · rw [hl]
      simp [pass1RowA_colMap]
    · rw [hl]
      simp
  · rw [if_neg hd, if_neg hd]
    rw [pass1RowA_colMap]

theorem pass1Go_colMap (c : Nat) : ∀ (ls : List String) (r : Nat) (st : St1),
    lookupNat (pass1Go r ls st).columnToNameMap c =
      match (ls.filterMap (colCand c)).getLast? with
      | some nm => some nm
      | none => lookupNat st.columnToNameMap c := by
  intro ls
  induction ls with
  | nil => intro r st; rfl
  | cons line rest ih =>
    intro r st
    show lookupNat (pass1Go (r + 1) rest (pass1Row r line st)).columnToNameMap c = _
    rw [ih, pass1Row_colMap]
    rcases hc : colCand c line with _ | nm
    · rw [List.filterMap_cons_none hc]
    · rw [List.filterMap_cons_some hc, List.getLast?_cons]
      rcases hl : (rest.filterMap (colCand c)).getLast? with _ | w <;> rfl

/-- After pass 1, column `c` maps to the name contributed by the last
`date` row with a valid cell at `c` (and to nothing otherwise). -/
theorem pass1_colMap (lines : List String) (c : Nat) :
    lookupNat (pass1 lines).columnToNameMap c = (lines.filterMap (colCand c)).getLast? := by
  rw [pass1, pass1Go_colMap]
  rcases hl : ((lines.filterMap (colCand c)).getLast?) with _ | nm <;> rfl

/-! ### Scheduler / frontend relation -/

theorem schedMkSummaryPerson_eq (mc : List (String × Q)) (rate : Option Q) (i : Nat)
    (row : List String) (nI cI bI : Nat) :
    schedMkSummaryPerson mc rate i row nI cI bI =
      stripEmail (mkSummaryPerson mc rate i row nI cI bI) := rfl

theorem schedReadSummary_eq (mc : List (String × Q)) (rate : Option Q) (nI cI bI : Nat) :
    ∀ (ls : List String) (i : Nat),
      schedReadSummary mc rate nI cI bI i ls =
        (readSummary mc rate nI cI bI i ls).map stripEmail := by
  intro ls
  induction ls with
  | nil => intro i; rfl
  | cons line rest ih =>
    intro i
    simp only [schedReadSummary, readSummary]
    by_cases hs : summaryStop nI cI bI (splitRow line) = true
    · rw [if_pos hs, if_pos hs]
      rfl
    · rw [if_neg hs, if_neg hs, List.map_cons, ih]
      rfl

theorem schedFireResult_eq (mc : List (String × Q)) (rate : Option Q) (r : Nat)
    (line : String) (rest : List String) :
    schedFireResult mc rate r line rest =
      (fireResult mc rate r line rest).map (List.map stripEmail) := by
  simp only [schedFireResult, fireResult]
  rcases hn : findNameIdx ((splitRow line).map jsLower) with _ | nI
  · rfl
  · simp only []
    rcases hc : findCostIdx ((splitRow line).map jsLower) nI with _ | cI
    · rcases hb : findBalanceIdx ((splitRow line).map jsLower) nI with _ | bI <;> rfl
    · rcases hb : findBalanceIdx ((splitRow line).map jsLower) nI with _ | bI
      · rfl
      · simp only [schedReadSummary_eq]
        by_cases he : (readSummary mc rate nI cI bI (r + 1) rest).isEmpty = true
        · rw [if_pos he, if_pos (by simpa [List.isEmpty_iff] using (List.isEmpty_iff.mp he) ▸ rfl)]
          rfl
        · rw [if_neg he, if_neg ?hne]
          · rfl
          case hne =>
            intro hmape
            apply he
            rcases hrs : readSummary mc rate nI cI bI (r + 1) rest with _ | ⟨a, t⟩
            · rfl
            · rw [hrs] at hmape
              simp at hmape

theorem schedScan2_eq (mc : List (String × Q)) (rate : Option Q) :
    ∀ (ls : List String) (r : Nat),
      schedScan2 mc rate r ls = (scan2 mc rate r ls).map (List.map stripEmail) := by
  intro ls
  induction ls with
  | nil => intro r; rfl
  | cons line rest ih =>
    intro r
    rw [schedScan2, scan2, schedFireResult_eq]
    rcases hf : fireResult mc rate r line rest with _ | ps
    · simp only [Option.map_none']
      exact ih (r + 1)
    · rfl

/-! ### Remaining plumbing for the claim theorems -/

theorem summaryStop_false_parts {nI cI bI : Nat} {row : List String}
    (h : summaryStop nI cI bI row = false) :
    summaryMaxIdx nI cI bI < row.length ∧ row.getD nI "" ≠ "" := by
  simp only [summaryStop, Bool.or_eq_false_iff, decide_eq_false_iff_not] at h
  exact ⟨by omega, h.2.1.1.1⟩

theorem fallbackRows_mem {nI mI : Nat} {pIdx : Option Nat} :
    ∀ {ls : List String} {i : Nat} {p : Person},
      p ∈ fallbackRows nI mI pIdx i ls →
      ∃ j line, line ∈ ls ∧ (splitRow line).getD nI "" ≠ "" ∧
        p = mkListPerson j (splitRow line) nI mI pIdx := by
  intro ls
  induction ls with
  | nil => intro i p h; simp [fallbackRows] at h
  | cons line rest ih =>
    intro i p h
    simp only [fallbackRows] at h
    by_cases h1 : (splitRow line).length ≤ nI
    · rw [if_pos h1] at h
      rcases ih h with ⟨j, l', hmem, hname, hp⟩
      exact ⟨j, l', List.mem_cons_of_mem _ hmem, hname, hp⟩
    · rw [if_neg h1] at h
      by_cases h2 : (splitRow line).getD nI "" = ""
      · rw [if_pos h2] at h
        rcases ih h with ⟨j, l', hmem, hname, hp⟩
        exact ⟨j, l', List.mem_cons_of_mem _ hmem, hname, hp⟩
      · rw [if_neg h2] at h
        rcases List.mem_cons.mp h with h | h
        · exact ⟨i, line, List.mem_cons_self _ _, h2, h⟩
        · rcases ih h with ⟨j, l', hmem, hname, hp⟩
          exact ⟨j, l', List.mem_cons_of_mem _ hmem, hname, hp⟩

theorem fallbackResult_people_mem {lines : List String} {p : Person}
    (h : p ∈ (fallbackResult lines).people) :
    ∃ nI mI pIdx j line, line ∈ lines.drop 1 ∧ (splitRow line).getD nI "" ≠ "" ∧
      p = mkListPerson j (splitRow line) nI mI pIdx := by
  simp only [fallbackResult] at h
  split at h
  · rename_i nI mI hn hm
    rcases fallbackRows_mem h with ⟨j, line, hmem, hname, hp⟩
    exact ⟨nI, mI, _, j, line, hmem, hname, hp⟩
  · simp at h

theorem scan2_ne_nil {mc : List (String × Q)} {rate : Option Q} {r : Nat}
    {ls : List String} {ps : List Person} (h : scan2 mc rate r ls = some ps) : ps ≠ [] := by
  rcases scan2_some h with ⟨_, _, _, _, _, _, hne, _⟩
  exact hne

theorem parseCSV_classify (csv : String) :
    parseCSV csv = { people := [], hasContribution := false, extractedRate := none } ∨
    (∃ ps, scan2 (pass1 (splitLines csv)).mealCounts (pass1 (splitLines csv)).extractedRate 0
        (splitLines csv) = some ps ∧ ps ≠ [] ∧ parseCSV csv =
      { people := ps, hasContribution := true,
        extractedRate := (pass1 (splitLines csv)).extractedRate }) ∨
    parseCSV csv = fallbackResult (splitLines csv) := by
  by_cases hlen : (splitLines csv).length < 2
  · exact Or.inl (parseCSV_short hlen)
  · rcases hs : scan2 (pass1 (splitLines csv)).mealCounts
        (pass1 (splitLines csv)).extractedRate 0 (splitLines csv) with _ | ps
    · exact Or.inr (Or.inr (parseCSV_of_scan2_none hlen hs))
    · exact Or.inr (Or.inl ⟨ps, rfl, scan2_ne_nil hs, parseCSV_of_scan2_some hs⟩)

/-! ### Claim theorems -/

/-- Claim C1: every summary-table data row parsed in pass 2 with parsed
cost `c` and parsed balance `b` yields a record with
`contribution = c + b` and `customBalance = some b`, and the downstream
balance computation of `App.tsx` returns exactly `b` for that record at
any meal rate (`customBalance`, when defined, overrides
`contribution - cost`). -/
theorem c1_custom_balance_override :
    ∀ (mc : List (String × Q)) (rate : Option Q) (nI cI bI i : Nat) (ls : List String)
      (p : Person), p ∈ readSummary mc rate nI cI bI i ls →
      ∃ line ∈ ls,
        p.contribution = parseFloatOrZero ((splitRow line).getD cI "") +
          parseFloatOrZero ((splitRow line).getD bI "") ∧
        p.customBalance = some (parseFloatOrZero ((splitRow line).getD bI "")) ∧
        ∀ r : Q, balanceFor p r = parseFloatOrZero ((splitRow line).getD bI "") := by
  intro mc rate nI cI bI i ls p hmem
  rcases readSummary_mem hmem with ⟨j, line, hline, hstop, hp⟩
  refine ⟨line, hline, ?_, ?_, ?_⟩
  · rw [hp]; rfl
  · rw [hp]; rfl
  · intro r
    rw [hp]
    rfl

theorem c1_custom_balance_override_witness :
    ∃ line ∈ ["Alice,100,50"],
      (mkSummaryPerson [] none 1 (splitRow "Alice,100,50") 0 1 2).contribution =
        parseFloatOrZero ((splitRow line).getD 1 "") +
          parseFloatOrZero ((splitRow line).getD 2 "") ∧
      (mkSummaryPerson [] none 1 (splitRow "Alice,100,50") 0 1 2).customBalance =
        some (parseFloatOrZero ((splitRow line).getD 2 "")) ∧
      ∀ r : Q, balanceFor (mkSummaryPerson [] none 1 (splitRow "Alice,100,50") 0 1 2) r =
        parseFloatOrZero ((splitRow line).getD 2 "") :=
  c1_custom_balance_override [] none 0 1 2 1 ["Alice,100,50"] _ (by decide)

/-- Claim C2 as stated is false: the count used for a person need not
come from the first `Total` row strictly below the grid header.  In this
input the first `Total` row has no parseable cell in Alice's column, so
the claim's priority gives meals `0` for Alice, while the parser records
`7` from the second `Total` row. -/
theorem c2_meal_priority_counterexample :
    ((parseCSV "Date,Alice,Bob\nTotal,xx,5\nTotal,7,6\nName,Cost,Balance\nAlice,100,50").people.map
        Person.meals = [(7 : Q)]) ∧
    lookupStr (claimC2FirstTotalCounts
        (splitLines "Date,Alice,Bob\nTotal,xx,5\nTotal,7,6\nName,Cost,Balance\nAlice,100,50"))
        "alice" = none ∧
    (pass1 (splitLines "Date,Alice,Bob\nTotal,xx,5\nTotal,7,6\nName,Cost,Balance\nAlice,100,50")).extractedRate
      = none ∧
    mealsFor (claimC2FirstTotalCounts
        (splitLines "Date,Alice,Bob\nTotal,xx,5\nTotal,7,6\nName,Cost,Balance\nAlice,100,50"))
        none "Alice" (100 : Q) = 0 ∧
    (7 : Q) ≠ 0 := by decide

/-- Claim C2 (amended): for every person emitted in summary mode, `meals`
follows the priority (1) the count recorded for the person's lowercased
name in `mealCounts` — where a later `Total` row may supply a name the
earlier ones missed, but never changes an already-recorded name's count —
else (2) `cost / extractedRate` rounded to two decimals when the rate is
set and positive, else (3) `0`.  (`mealsFor` is exactly that priority.) -/
theorem c2_meal_priority_amended :
    (∀ (mc : List (String × Q)) (rate : Option Q) (nI cI bI i : Nat) (ls : List String)
       (p : Person), p ∈ readSummary mc rate nI cI bI i ls →
       ∃ line ∈ ls, p.name = (splitRow line).getD nI "" ∧
         p.meals = mealsFor mc rate p.name (parseFloatOrZero ((splitRow line).getD cI ""))) ∧
    (∀ (st : St1) (r : Nat) (line : String) (k : String) (v : Q),
       lookupStr st.mealCounts k = some v →
       lookupStr (pass1Row r line st).mealCounts k = some v) := by
  constructor
  · intro mc rate nI cI bI i ls p hmem
    rcases readSummary_mem hmem with ⟨j, line, hline, hstop, hp⟩
    refine ⟨line, hline, ?_, ?_⟩
    · rw [hp]
      rfl
    · rw [hp]
      rfl
  · intro st r line k v h
    exact pass1Row_mealCounts_preserve r line st k v h

theorem c2_meal_priority_amended_witness :
    ∃ line ∈ ["Alice,100,50"],
      (mkSummaryPerson [("alice", (7 : Q))] none 1 (splitRow "Alice,100,50") 0 1 2).name =
        (splitRow line).getD 0 "" ∧
      (mkSummaryPerson [("alice", (7 : Q))] none 1 (splitRow "Alice,100,50") 0 1 2).meals =
        mealsFor [("alice", (7 : Q))] none
          (mkSummaryPerson [("alice", (7 : Q))] none 1 (splitRow "Alice,100,50") 0 1 2).name
          (parseFloatOrZero ((splitRow line).getD 1 "")) :=
  c2_meal_priority_amended.1 [("alice", (7 : Q))] none 0 1 2 1 ["Alice,100,50"] _ (by decide)

/-- Claim C3 as stated is false: within one row only the first rate
label is examined.  Here the second row's first label is followed by an
unparseable cell, so the parser keeps `5` from the first row, while the
claim's "last rate label whose next cell parses as a positive float"
(the second label of row two) would give `7`. -/
theorem c3_rate_extraction_counterexample :
    (parseCSV "rate,5\nrate,abc,rate,7\nName,Cost,Balance\nAlice,100,50").extractedRate =
      some (5 : Q) ∧
    claimC3Rate (splitLines "rate,5\nrate,abc,rate,7\nName,Cost,Balance\nAlice,100,50") =
      some (7 : Q) ∧
    some (5 : Q) ≠ some (7 : Q) := by decide

/-- Claim C3 (amended): an extracted rate is always strictly positive;
the rate after pass 1 equals the candidate of the last row that has one,
where a row's candidate examines only the first rate label of the row
and is kept only when the label's next cell parses as a positive float
(rows without a qualifying candidate leave the rate unchanged); and a
returned `extractedRate` always equals the pass-1 rate. -/
theorem c3_rate_extraction_amended :
    (∀ lines : List String,
       (pass1 lines).extractedRate = (lines.filterMap rowRateCand).getLast?) ∧
    (∀ (lines : List String) (v : Q), (pass1 lines).extractedRate = some v → 0 < v) ∧
    (∀ (csv : String) (v : Q), (parseCSV csv).extractedRate = some v →
       (pass1 (splitLines csv)).extractedRate = some v) := by
  refine ⟨?_, ?_, ?_⟩
  · intro lines
    rw [pass1, pass1Go_rate]
    rcases (lines.filterMap rowRateCand).getLast? with _ | v <;> rfl
  · intro lines v h
    exact pass1_rate_pos lines v h
  · intro csv v h
    exact parseCSV_rate_some h

theorem c3_rate_extraction_amended_witness :
    (0 : Q) < (5 : Q) ∧
    (pass1 (splitLines "rate,5\nName,Cost,Balance\nAlice,100,50")).extractedRate =
      some (5 : Q) :=
  ⟨c3_rate_extraction_amended.2.1 (splitLines "rate,5\nName,Cost,Balance\nAlice,100,50")
      (5 : Q) (by decide),
   c3_rate_extraction_amended.2.2 "rate,5\nName,Cost,Balance\nAlice,100,50" (5 : Q) (by decide)⟩

/-- Claim C4: the summary data rows are exactly the consecutive rows
after the matched header up to (excluding) the first terminating row
(too short, empty name, name containing `total` or equal to `check`, or
both cost and balance cells empty); and when the first firing header row
yields at least one person, the parser returns exactly those people with
`hasContribution = true` and the pass-1 extracted rate, never examining
later rows. -/
theorem c4_summary_table_scan :
    (∀ (mc : List (String × Q)) (rate : Option Q) (nI cI bI : Nat) (ls : List String) (i : Nat),
       readSummary mc rate nI cI bI i ls =
         ((List.enumFrom i ls).takeWhile
             (fun q => !(summaryStop nI cI bI (splitRow q.2)))).map
           (fun q => mkSummaryPerson mc rate q.1 (splitRow q.2) nI cI bI)) ∧
    (∀ (csv : String) (k : Nat) (ps : List Person),
       fireAt (pass1 (splitLines csv)).mealCounts (pass1 (splitLines csv)).extractedRate
         (splitLines csv) k = some ps →
       (∀ j, j < k → fireAt (pass1 (splitLines csv)).mealCounts
         (pass1 (splitLines csv)).extractedRate (splitLines csv) j = none) →
       parseCSV csv =
         { people := ps, hasContribution := true,
           extractedRate := (pass1 (splitLines csv)).extractedRate }) := by
  constructor
  · intro mc rate nI cI bI ls i
    exact readSummary_eq_takeWhile mc rate nI cI bI ls i
  · intro csv k ps hk hj
    apply parseCSV_of_scan2_some
    exact scan2_of_fireAt (splitLines csv) 0 k ps (by simpa [fireAt] using hk)
      (fun j hjk => by simpa [fireAt] using hj j hjk)

theorem c4_summary_table_scan_witness :
    parseCSV "Name,Cost,Balance\nAlice,100,50\nBob,200,-20" =
      { people :=
          [{ id := "sheet-summary-1", name := "Alice", email := "alice@example.com",
             meals := 0, contribution := (150 : Q), customBalance := some (50 : Q) },
           { id := "sheet-summary-2", name := "Bob", email := "bob@example.com",
             meals := 0, contribution := (180 : Q), customBalance := some (-(20 : Q)) }],
        hasContribution := true,
        extractedRate :=
          (pass1 (splitLines "Name,Cost,Balance\nAlice,100,50\nBob,200,-20")).extractedRate } :=
  c4_summary_table_scan.2 "Name,Cost,Balance\nAlice,100,50\nBob,200,-20" 0 _ (by decide)
    (fun j hj => absurd hj (Nat.not_lt_zero j))

/-- Claim C5 as stated is false: a later qualifying header does not
replace the whole column map — columns of an earlier header that the
later header does not cover persist.  Here the later header
`Date,Carol,Dan` leaves column 3 mapped to `Eve` from the earlier
header, so Eve's grid total `7` is still attributed to her, while the
claim's last-header-only map would give meals `0`. -/
theorem c5_last_header_counterexample :
    ((parseCSV "Date,Alice,Bob,Eve\nDate,Carol,Dan\nTotal,1,2,7\nName,Cost,Balance\nEve,100,50").people.map
        Person.meals = [(7 : Q)]) ∧
    lookupNat (claimC5ColMap
        (splitLines "Date,Alice,Bob,Eve\nDate,Carol,Dan\nTotal,1,2,7\nName,Cost,Balance\nEve,100,50"))
        3 = none ∧
    lookupStr (claimC5Counts
        (splitLines "Date,Alice,Bob,Eve\nDate,Carol,Dan\nTotal,1,2,7\nName,Cost,Balance\nEve,100,50"))
        "eve" = none ∧
    mealsFor (claimC5Counts
        (splitLines "Date,Alice,Bob,Eve\nDate,Carol,Dan\nTotal,1,2,7\nName,Cost,Balance\nEve,100,50"))
        none "Eve" (100 : Q) = 0 ∧
    (7 : Q) ≠ 0 := by decide

/-- Claim C5 (amended): `date` rows update the column map entrywise (a
later header overwrites the columns it names, and even a `date` row with
at most one valid name contributes its entries without being retained as
header); after pass 1, column `c` maps to the valid cell of the last
`date` row naming column `c`, so entries of earlier headers persist at
columns the last header does not cover. -/
theorem c5_last_header_amended :
    ∀ (lines : List String) (c : Nat),
      lookupNat (pass1 lines).columnToNameMap c = (lines.filterMap (colCand c)).getLast? :=
  pass1_colMap

/-- Claim C6 as stated is false: names need not be pairwise distinct
within one result — two summary data rows with the same name each emit a
record, and nothing deduplicates them. -/
theorem c6_distinct_names_counterexample :
    ((parseCSV "Name,Cost,Balance\nAlice,100,50\nAlice,200,60").people.map Person.name =
      ["Alice", "Alice"]) ∧
    ¬ ((parseCSV "Name,Cost,Balance\nAlice,100,50\nAlice,200,60").people.map
        Person.name).Nodup := by decide

/-- Claim C6 (amended): every `MealRecord.name` in a returned
`ParseResult` is a non-empty string (rows with empty names terminate the
summary scan and are skipped by the fallback list); distinctness is not
guaranteed. -/
theorem c6_nonempty_names_amended :
    ∀ (csv : String) (p : Person), p ∈ (parseCSV csv).people → p.name ≠ "" := by
  intro csv p hmem
  rcases parseCSV_classify csv with h | ⟨ps, hscan, hne, h⟩ | h
  · rw [h] at hmem
    simp at hmem
  · rw [h] at hmem
    simp only [] at hmem
    rcases scan2_some hscan with ⟨nI, cI, bI, j, ls', hps, _, hsub⟩
    rw [hps] at hmem
    rcases readSummary_mem hmem with ⟨j', line, hline, hstop, hp⟩
    rw [hp]
    exact (summaryStop_false_parts hstop).2
  · rw [h] at hmem
    rcases fallbackResult_people_mem hmem with ⟨nI, mI, pIdx, j, line, hline, hname, hp⟩
    rw [hp]
    exact hname

theorem c6_nonempty_names_amended_witness :
    (mkSummaryPerson [] none 1 (splitRow "Alice,100,50") 0 1 2).name ≠ "" :=
  c6_nonempty_names_amended "Name,Cost,Balance\nAlice,100,50" _ (by decide)

/-- Claim C7 as stated is false: when the fallback simple-list header
matches (with a paid column) but no data row qualifies, the parser
returns an empty `people` array with `hasContribution = true`, so an
empty result does not imply `hasContribution = false`. -/
theorem c7_empty_result_counterexample :
    parseCSV "name,meal,paid\n" =
      { people := [], hasContribution := true, extractedRate := none } ∧
    (parseCSV "name,meal,paid\n").people = [] ∧
    (parseCSV "name,meal,paid\n").hasContribution = true := by decide

/-- Claim C7 (amended): inputs with fewer than 2 lines, and inputs where
neither the summary scan fires nor the fallback finds both a name and a
meal column, yield `{ people := [], hasContribution := false }`; but a
matching fallback header with no qualifying data rows can return empty
people with `hasContribution = true`. -/
theorem c7_empty_result_amended :
    (∀ csv : String, (splitLines csv).length < 2 →
       parseCSV csv = { people := [], hasContribution := false, extractedRate := none }) ∧
    (∀ csv : String,
       scan2 (pass1 (splitLines csv)).mealCounts (pass1 (splitLines csv)).extractedRate 0
         (splitLines csv) = none →
       ((fallbackHeaders ((splitLines csv).headD "")).findIdx?
           (fun h => jsIncludes h "name" || jsIncludes h "member") = none ∨
        (fallbackHeaders ((splitLines csv).headD "")).findIdx?
           (fun h => jsIncludes h "meal" || jsIncludes h "count") = none) →
       parseCSV csv = { people := [], hasContribution := false, extractedRate := none }) := by
  constructor
  · intro csv h
    exact parseCSV_short h
  · intro csv hscan hidx
    by_cases hlen : (splitLines csv).length < 2
    · exact parseCSV_short hlen
    · rw [parseCSV_of_scan2_none hlen hscan]
      simp only [fallbackResult]
      rcases hidx with h | h
      · simp only [List.headD_eq_head?_getD] at h
        simp [h]
      · simp only [List.headD_eq_head?_getD] at h
        rcases hn : (fallbackHeaders ((splitLines csv).headD "")).findIdx?
            (fun h => jsIncludes h "name" || jsIncludes h "member") with _ | nI
        · simp only [List.headD_eq_head?_getD] at hn
          simp [hn]
        · simp only [List.headD_eq_head?_getD] at hn
          simp [hn, h]

theorem c7_empty_result_amended_witness :
    (parseCSV "" = { people := [], hasContribution := false, extractedRate := none }) ∧
    (parseCSV "x\ny" = { people := [], hasContribution := false, extractedRate := none }) :=
  ⟨c7_empty_result_amended.1 "" (by decide),
   c7_empty_result_amended.2 "x\ny" (by decide) (Or.inl (by decide))⟩

/-- Claim C8: `parseCSV` is total — the embedding is a total function,
every result is one of the three documented shapes (early empty result,
non-empty summary result forwarding the pass-1 rate, or the fallback
simple-list result), and unparseable numeric cells are treated as `0`. -/
theorem c8_parse_totality :
    (∀ s : String, parseFloatQ s = none → parseFloatOrZero s = 0) ∧
    (∀ csv : String,
      parseCSV csv = { people := [], hasContribution := false, extractedRate := none } ∨
      (∃ ps, ps ≠ [] ∧ parseCSV csv =
        { people := ps, hasContribution := true,
          extractedRate := (pass1 (splitLines csv)).extractedRate }) ∨
      parseCSV csv = fallbackResult (splitLines csv)) := by
  constructor
  · intro s h
    rw [parseFloatOrZero, h]
    rfl
  · intro csv
    rcases parseCSV_classify csv with h | ⟨ps, _, hne, h⟩ | h
    · exact Or.inl h
    · exact Or.inr (Or.inl ⟨ps, hne, h⟩)
    · exact Or.inr (Or.inr h)

theorem c8_parse_totality_witness : parseFloatOrZero "abc" = 0 :=
  c8_parse_totality.1 "abc" (by decide)

/-- Claim C9 as stated is false: a negative value in a grid `Total` row
is recorded verbatim and emitted as a negative meal count. -/
theorem c9_nonneg_meals_counterexample :
    ((parseCSV "Date,Alice,Bob\nTotal,-5,3\nName,Cost,Balance\nAlice,100,50").people.map
        Person.meals = [-(5 : Q)]) ∧
    ¬ ((0 : Q) ≤ -(5 : Q)) := by decide

/-- Claim C9 (amended): whenever every cell of the input parses
non-negative (unparseable cells count as 0), every emitted meal count is
non-negative. -/
theorem c9_nonneg_meals_amended :
    ∀ csv : String,
      (∀ line ∈ splitLines csv, ∀ cell ∈ splitRow line, (0 : Q) ≤ parseFloatOrZero cell) →
      ∀ p ∈ (parseCSV csv).people, (0 : Q) ≤ p.meals := by
  intro csv hnn p hmem
  rcases parseCSV_classify csv with h | ⟨ps, hscan, _, h⟩ | h
  · rw [h] at hmem
    simp at hmem
  · rw [h] at hmem
    simp only [] at hmem
    rcases scan2_some hscan with ⟨nI, cI, bI, j, ls', hps, _, hsub⟩
    rw [hps] at hmem
    rcases readSummary_mem hmem with ⟨j', line, hline, hstop, hp⟩
    rw [hp]
    have heq : (mkSummaryPerson (pass1 (splitLines csv)).mealCounts
        (pass1 (splitLines csv)).extractedRate j' (splitRow line) nI cI bI).meals =
        mealsFor (pass1 (splitLines csv)).mealCounts (pass1 (splitLines csv)).extractedRate
          ((splitRow line).getD nI "") (parseFloatOrZero ((splitRow line).getD cI "")) := rfl
    rw [heq]
    apply mealsFor_nonneg
    · exact pass1_mealCounts_nonneg (splitLines csv) hnn
    · intro v hv
      exact pass1_rate_pos (splitLines csv) v hv
    · have hlen := (summaryStop_false_parts hstop).1
      have hcIlt : cI < (splitRow line).length := by
        unfold summaryMaxIdx at hlen
        omega
      exact hnn line (hsub line hline) _ (getD_mem _ cI "" hcIlt)
  · rw [h] at hmem
    rcases fallbackResult_people_mem hmem with ⟨nI, mI, pIdx, j, line, hline, _, hp⟩
    rw [hp]
    show (0 : Q) ≤ parseFloatOrZero ((splitRow line).getD mI "")
    by_cases hmlt : mI < (splitRow line).length
    · exact hnn line (List.mem_of_mem_drop hline) _ (getD_mem _ mI "" hmlt)
    · have hout : (splitRow line).getD mI "" = "" := by
        rw [List.getD_eq_default]
        omega
      rw [hout]
      decide

theorem c9_nonneg_meals_amended_witness :
    (0 : Q) ≤
      ({ id := "sheet-summary-3", name := "Alice", email := "alice@example.com",
         meals := (4 : Q), contribution := (150 : Q),
         customBalance := some (50 : Q) } : Person).meals :=
  c9_nonneg_meals_amended "Date,Alice,Bob\nTotal,4,6\nName,Cost,Balance\nAlice,100,50"
    (by decide) _ (by decide)

/-- Claim C10 as stated is false: the two parsers do not return the same
people — the frontend synthesizes an email from the name while the
scheduler leaves it empty (and only the frontend has the simple-list
fallback). -/
theorem c10_sched_equivalence_counterexample :
    ((parseCSV "Name,Cost,Balance\nAlice,100,50").people.map Person.email =
      ["alice@example.com"]) ∧
    ((schedParseCSV "Name,Cost,Balance\nAlice,100,50").people.map Person.email = [""]) ∧
    (parseCSV "Name,Cost,Balance\nAlice,100,50").people ≠
      (schedParseCSV "Name,Cost,Balance\nAlice,100,50").people := by decide

/-- Claim C10 (amended): when the summary scan fires, the scheduler
returns exactly the frontend's people with emails blanked, and the same
extracted rate; when it does not fire the scheduler returns no people at
all (it has no fallback mode). -/
theorem c10_sched_equivalence_amended :
    ∀ csv : String,
      (∀ ps, scan2 (pass1 (splitLines csv)).mealCounts (pass1 (splitLines csv)).extractedRate 0
          (splitLines csv) = some ps →
        parseCSV csv =
          { people := ps, hasContribution := true,
            extractedRate := (pass1 (splitLines csv)).extractedRate } ∧
        schedParseCSV csv =
          { people := ps.map stripEmail,
            extractedRate := (pass1 (splitLines csv)).extractedRate }) ∧
      (scan2 (pass1 (splitLines csv)).mealCounts (pass1 (splitLines csv)).extractedRate 0
          (splitLines csv) = none →
        (schedParseCSV csv).people = []) := by
  intro csv
  constructor
  · intro ps hscan
    refine ⟨parseCSV_of_scan2_some hscan, ?_⟩
    simp only [schedParseCSV]
    rw [if_neg (scan2_some_len hscan), schedScan2_eq, hscan]
    rfl
  · intro hscan
    by_cases hlen : (splitLines csv).length < 2
    · simp only [schedParseCSV]
      rw [if_pos hlen]
    · simp only [schedParseCSV]
      rw [if_neg hlen, schedScan2_eq, hscan]
      rfl

theorem c10_sched_equivalence_amended_witness :
    (parseCSV "Name,Cost,Balance\nAlice,100,50" =
      { people :=
          [{ id := "sheet-summary-1", name := "Alice", email := "alice@example.com",
             meals := 0, contribution := (150 : Q), customBalance := some (50 : Q) }],
        hasContribution := true,
        extractedRate :=
          (pass1 (splitLines "Name,Cost,Balance\nAlice,100,50")).extractedRate }) ∧
    (schedParseCSV "Name,Cost,Balance\nAlice,100,50" =
      { people :=
          ([{ id := "sheet-summary-1", name := "Alice", email := "alice@example.com",
              meals := 0, contribution := (150 : Q),
              customBalance := some (50 : Q) }].map stripEmail),
        extractedRate :=
          (pass1 (splitLines "Name,Cost,Balance\nAlice,100,50")).extractedRate }) :=
  (c10_sched_equivalence_amended "Name,Cost,Balance\nAlice,100,50").1 _ (by decide)

end MealShare
